import Mathlib

set_option maxRecDepth 8192

/-!
Verification of the git_analyze GitHub crawler.

This file gives a shallow embedding of the Python sources
(`main.py`, `src/main.py`, `src/utils/utils.py`,
`src/data/github/github_collector.py`) and proves or refutes the frozen
specification claims about them.

Conventions of the embedding:
* Python `str` is Lean `String`; character-level work is done on `String.data`
  (`List Char`), matching Python's codepoint semantics for `len` and slicing.
* Python `None` is `Option.none`; a value that may be `None` is an `Option`.
* Network calls made by a function under analysis are passed in as explicit
  oracle arguments (page number to response, username to user info, ...).
* Unbounded `while` loops are embedded with an explicit fuel argument and
  return `Option`: `none` means the fuel ran out before the loop exited, so
  `= some _` expresses termination of the loop.
-/

/-! ## utils.py / string helpers

`pyIsSpace` is the set of characters Python treats as whitespace, both for
`str.strip()` and for the regex class `\s` (ASCII whitespace plus the
Unicode whitespace codepoints).
-/

def pyIsSpace (c : Char) : Bool :=
  c = ' ' || c = '\t' || c = '\n' || c = '\r' || c = '\x0b' || c = '\x0c' ||
  c = '\x1c' || c = '\x1d' || c = '\x1e' || c = '\x1f' || c = '\x85' ||
  c = ' ' || c = ' ' || (' ' ≤ c && c ≤ ' ') ||
  c = ' ' || c = ' ' || c = ' ' || c = ' ' || c = '　'

/-- Python `s.strip()`: drop leading and trailing whitespace. -/
def stripWS (l : List Char) : List Char :=
  ((l.dropWhile pyIsSpace).reverse.dropWhile pyIsSpace).reverse

/-- Python `re.sub(r'\s+', ' ', s)`: every maximal run of whitespace becomes
one single space (the run's last character emits the space). -/
def collapseWS : List Char → List Char
  | [] => []
  | [c] => if pyIsSpace c then [' '] else [c]
  | c1 :: c2 :: rest =>
    if pyIsSpace c1 && pyIsSpace c2 then collapseWS (c2 :: rest)
    else if pyIsSpace c1 then ' ' :: collapseWS (c2 :: rest)
    else c1 :: collapseWS (c2 :: rest)

/-- Character-level body of `clean_message` for a truthy message:
`cleaned = re.sub(r'\s+', ' ', message.strip())`, then truncation of
anything longer than 200 characters to 197 characters plus `"..."`. -/
def cleanList (l : List Char) : List Char :=
  let cleaned := collapseWS (stripWS l)
  if 200 < cleaned.length then cleaned.take 197 ++ ['.', '.', '.'] else cleaned

/-- `utils.clean_message` (identical to `GitHubAnalyzer.clean_commit_message`).
The argument is `Option String` so Python `None` is representable; the falsy
inputs `None` and `""` both return the sentinel `"N/A"`. -/
def clean_message : Option String → String
  | none => "N/A"
  | some m => if m = "" then "N/A" else String.mk (cleanList m.data)

/-! ## utils.py / format_date -/

/-- Digit character for `k % 10`-style arguments; used to render one decimal
digit of a zero-padded number. -/
def digitChar : Nat → Char
  | 0 => '0' | 1 => '1' | 2 => '2' | 3 => '3' | 4 => '4'
  | 5 => '5' | 6 => '6' | 7 => '7' | 8 => '8' | _ => '9'

/-- `%02d` for values in `0..99` (all fields of a Python `datetime` that are
rendered with `%m %d %H %M %S` lie in that range). -/
def pad2 (n : Nat) : List Char :=
  [digitChar ((n / 10) % 10), digitChar (n % 10)]

/-- `%04d` for values in `0..9999` (a Python `datetime` year lies in
`1..9999`). -/
def pad4 (n : Nat) : List Char :=
  [digitChar ((n / 1000) % 10), digitChar ((n / 100) % 10),
   digitChar ((n / 10) % 10), digitChar (n % 10)]

/-- The fields of a parsed `datetime` that `%Y-%m-%d %H:%M:%S` renders. -/
structure PyDateTime where
  year : Nat
  month : Nat
  day : Nat
  hour : Nat
  minute : Nat
  second : Nat
deriving DecidableEq

/-- `dt.strftime("%Y-%m-%d %H:%M:%S")`. -/
def strftimeYmdHMS (dt : PyDateTime) : String :=
  String.mk (pad4 dt.year ++ '-' :: pad2 dt.month ++ '-' :: pad2 dt.day ++
    ' ' :: pad2 dt.hour ++ ':' :: pad2 dt.minute ++ ':' :: pad2 dt.second)

def digitVal? (c : Char) : Option Nat :=
  if c.isDigit then some (c.toNat - 48) else none

def parseDigits2 (a b : Char) : Option Nat :=
  match digitVal? a, digitVal? b with
  | some x, some y => some (10 * x + y)
  | _, _ => none

def parseDigits4 (a b c d : Char) : Option Nat :=
  match digitVal? a, digitVal? b, digitVal? c, digitVal? d with
  | some x, some y, some z, some w => some (1000 * x + 100 * y + 10 * z + w)
  | _, _, _, _ => none

/-- A `±HH:MM` UTC-offset suffix, or no suffix.  The offset's value is
irrelevant to `format_date`: `strftime` renders the datetime's own fields. -/
def validTzSuffix : List Char → Bool
  | [] => true
  | '+' :: h1 :: h2 :: ':' :: m1 :: m2 :: [] =>
    (digitVal? h1).isSome && (digitVal? h2).isSome &&
    (digitVal? m1).isSome && (digitVal? m2).isSome
  | '-' :: h1 :: h2 :: ':' :: m1 :: m2 :: [] =>
    (digitVal? h1).isSome && (digitVal? h2).isSome &&
    (digitVal? m1).isSome && (digitVal? m2).isSome
  | _ => false

/-- `HH:MM:SS` with an optional `±HH:MM` suffix. -/
def parseTimeChars : List Char → Option (Nat × Nat × Nat)
  | h1 :: h2 :: ':' :: m1 :: m2 :: ':' :: s1 :: s2 :: tz =>
    match parseDigits2 h1 h2, parseDigits2 m1 m2, parseDigits2 s1 s2 with
    | some hh, some mm, some ss =>
      if hh ≤ 23 && mm ≤ 59 && ss ≤ 59 && validTzSuffix tz then
        some (hh, mm, ss)
      else none
    | _, _, _ => none
  | _ => none

/-- Models `datetime.fromisoformat` on the subset of inputs the program
meets: `YYYY-MM-DD`, optionally followed by `'T'` or `' '` and
`HH:MM:SS[±HH:MM]`.  `none` models the `ValueError` caught by
`format_date`'s bare `except`.  (The stdlib accepts some further variants,
e.g. fractional seconds, and validates day-of-month against the month; the
claims settled here do not depend on those cases.) -/
def pyFromIsoformat : List Char → Option PyDateTime
  | y1 :: y2 :: y3 :: y4 :: '-' :: mo1 :: mo2 :: '-' :: d1 :: d2 :: rest =>
    match parseDigits4 y1 y2 y3 y4, parseDigits2 mo1 mo2, parseDigits2 d1 d2 with
    | some y, some mo, some d =>
      if 1 ≤ mo && mo ≤ 12 && 1 ≤ d && d ≤ 31 && 1 ≤ y then
        match rest with
        | [] => some ⟨y, mo, d, 0, 0, 0⟩
        | sep :: tl =>
          if sep = 'T' || sep = ' ' then
            (parseTimeChars tl).map fun t => ⟨y, mo, d, t.1, t.2.1, t.2.2⟩
          else none
      else none
    | _, _, _ => none
  | _ => none

/-- Python `date_string.replace('Z', '+00:00')`: every occurrence of `'Z'`
is replaced. -/
def replaceZ : List Char → List Char
  | [] => []
  | c :: rest =>
    if c = 'Z' then '+' :: '0' :: '0' :: ':' :: '0' :: '0' :: replaceZ rest
    else c :: replaceZ rest

/-- `utils.format_date` (identical to `GitHubAnalyzer.format_date`): falsy
input gives `"N/A"`; a parse success is rendered with
`strftime("%Y-%m-%d %H:%M:%S")`; the bare `except` branch returns the raw
input string unchanged. -/
def format_date (date_string : String) : String :=
  if date_string = "" then "N/A"
  else
    match pyFromIsoformat (replaceZ date_string.data) with
    | some dt => strftimeYmdHMS dt
    | none => date_string

/-- Recognizer for the fixed `%Y-%m-%d %H:%M:%S` output shape: exactly 19
characters, digits in the date/time positions, the literal separators
`-`, `-`, space, `:`, `:` in between. -/
def isNormalizedTimestamp (s : String) : Bool :=
  match s.data with
  | [a, b, c, d, '-', e, f, '-', g, h, ' ', i, j, ':', k, l, ':', m, n] =>
    a.isDigit && b.isDigit && c.isDigit && d.isDigit && e.isDigit &&
    f.isDigit && g.isDigit && h.isDigit && i.isDigit && j.isDigit &&
    k.isDigit && l.isDigit && m.isDigit && n.isDigit
  | _ => false

/-! ## main.py / GitHubAnalyzer.make_request

`make_request` is embedded as the decision the function takes on one HTTP
response: either it returns the response to the caller, or it sleeps
(`wait_for_rate_limit`) and re-issues the *same* request
(`return self.make_request(url, params, is_search)`), or an uncaught
`ValueError` escapes from one of the `int(...)` conversions on the
rate-limit headers (the surrounding `try` only catches
`requests.exceptions.RequestException`).
-/

/-- Python `int(s)`: optional surrounding whitespace, optional sign, then a
nonempty digit string; everything else raises `ValueError` (modelled as
`none`).  (Underscore digit separators, accepted by CPython, are not
modelled; no claim depends on them.) -/
def pyInt? (s : String) : Option Int :=
  let core : List Char → Option Nat := fun ds =>
    if ds ≠ [] && ds.all Char.isDigit then
      some (ds.foldl (fun a c => a * 10 + (c.toNat - 48)) 0)
    else none
  match stripWS s.data with
  | '+' :: ds => (core ds).map Int.ofNat
  | '-' :: ds => (core ds).map fun n => -(n : Int)
  | ds => (core ds).map Int.ofNat

/-- The response fields `make_request` inspects: status code and the two
rate-limit headers (`none` = header absent). -/
structure HttpResponse where
  status_code : Nat
  xRateLimitRemaining : Option String
  xRateLimitReset : Option String
  text : String
deriving DecidableEq

/-- Python truthiness of `headers.get(...)`: `None` and `''` are falsy. -/
def optStrTruthy : Option String → Bool
  | none => false
  | some s => s ≠ ""

/-- Outcome of one `make_request` call on one response. -/
inductive ReqOutcome where
  | sleepRetry (url : String) (params : List (String × String)) (isSearch : Bool)
  | ret (response : HttpResponse)
  | raiseValueError
deriving DecidableEq

/-- Lines 184-189 of `main.py`: when the remaining-quota header is present
(and parses), the matching per-class counter is overwritten with it. -/
def updatedCounters (search_remaining core_remaining : Int) (is_search : Bool)
    (response : HttpResponse) : Int × Int :=
  match response.xRateLimitRemaining with
  | some s =>
    match pyInt? s with
    | some n => if is_search then (n, core_remaining) else (search_remaining, n)
    | none => (search_remaining, core_remaining)
  | none => (search_remaining, core_remaining)

/-- The control-flow of `GitHubAnalyzer.make_request` on a received
response.  First `int(response.headers['X-RateLimit-Remaining'])` runs when
that header is present (a non-integer value raises).  Then the 403 branch:
it sleeps and retries only when the remaining header equals `'0'` AND the
reset header is truthy; inside that branch `int(reset_time)` runs (a
non-integer reset raises).  All other statuses (422, other non-200, 200)
return the response as-is.  `requestDecision` is the status-code branch
tree (lines 191-218); `make_request` prepends the counter update's
`int(...)` conversion (lines 184-189). -/
def requestDecision (url : String) (params : List (String × String))
    (is_search : Bool) (response : HttpResponse) : ReqOutcome :=
  if response.status_code = 403 then
    if response.xRateLimitRemaining = some "0" ∧
        optStrTruthy response.xRateLimitReset = true then
      match response.xRateLimitReset with
      | some rs =>
        if (pyInt? rs).isSome then ReqOutcome.sleepRetry url params is_search
        else ReqOutcome.raiseValueError
      | none => ReqOutcome.ret response
    else ReqOutcome.ret response
  else ReqOutcome.ret response

def make_request (url : String) (params : List (String × String))
    (is_search : Bool) (response : HttpResponse) : ReqOutcome :=
  match response.xRateLimitRemaining with
  | some s =>
    if (pyInt? s).isSome then requestDecision url params is_search response
    else ReqOutcome.raiseValueError
  | none => requestDecision url params is_search response

/-! ## github_collector.py / contributor pagination (__get_all_contributors) -/

/-- A contributor entry: `login` is `none` when the JSON object has no
`'login'` key (or is not a dict); `contributions` is
`contributor.get('contributions', 0)`. -/
structure Contributor where
  login : Option String
  contributions : Nat
deriving DecidableEq

/-- The `while` loop of `GitHubDatasetCollector.__get_all_contributors`,
with fuel.  `pages page = none` models a non-200 response (break); an empty
page breaks; each page is filtered by `contributions >= min_contributions`
and appended; a page shorter than `per_page = 100` ends the pagination. -/
def contribLoop (pages : Nat → Option (List Contributor))
    (max_contributors min_contributions : Nat) :
    Nat → Nat → List Contributor → Option (List Contributor)
  | 0, _, _ => none
  | fuel + 1, page, contributors =>
    if max_contributors ≤ contributors.length then some contributors
    else
      match pages page with
      | none => some contributors
      | some page_contributors =>
        if page_contributors = [] then some contributors
        else
          let contributors' := contributors ++
            page_contributors.filter fun c => min_contributions ≤ c.contributions
          if page_contributors.length < 100 then some contributors'
          else contribLoop pages max_contributors min_contributions fuel
            (page + 1) contributors'

/-- `__get_all_contributors`: run the pagination loop from page 1 and return
`contributors[:max_contributors]`. -/
def get_all_contributors (pages : Nat → Option (List Contributor))
    (max_contributors min_contributions fuel : Nat) : Option (List Contributor) :=
  (contribLoop pages max_contributors min_contributions fuel 1 []).map
    fun l => l.take max_contributors

/-! ## github_collector.py / commit pagination (__get_user_commits) -/

/-- A raw commit list element: `hasCommit` is
`isinstance(commit, dict) and 'commit' in commit`; `sha` is
`commit.get('sha', '')`; `date` is
`commit['commit'].get('author', {}).get('date', '')`; `message` is the
commit message (`none` models a JSON `null`, read back as Python `None`). -/
structure RawCommit where
  hasCommit : Bool
  sha : String
  date : String
  message : Option String
deriving DecidableEq

/-- The record built for one commit: `sha[:8]`, `format_date(raw_date)`, and
`clean_message(message)`. -/
structure CommitRec where
  sha : String
  date : String
  message : String
deriving DecidableEq

def processCommit (c : RawCommit) : CommitRec :=
  { sha := c.sha.take 8, date := format_date c.date,
    message := clean_message c.message }

/-- The inner `for commit in page_commits` loop of `__get_user_commits`:
valid elements are processed and appended, and the loop breaks as soon as
`len(commits) >= max_commits`. -/
def commitsPage (max_commits : Nat) :
    List CommitRec → List RawCommit → List CommitRec
  | commits, [] => commits
  | commits, c :: rest =>
    if c.hasCommit then
      let commits' := commits ++ [processCommit c]
      if max_commits ≤ commits'.length then commits'
      else commitsPage max_commits commits' rest
    else commitsPage max_commits commits rest

/-- The `while` loop of `__get_user_commits`, with fuel; `per_page = 10`. -/
def commitsLoop (pages : Nat → Option (List RawCommit)) (max_commits : Nat) :
    Nat → Nat → List CommitRec → Option (List CommitRec)
  | 0, _, _ => none
  | fuel + 1, page, commits =>
    if max_commits ≤ commits.length then some commits
    else
      match pages page with
      | none => some commits
      | some page_commits =>
        if page_commits = [] then some commits
        else
          let commits' := commitsPage max_commits commits page_commits
          if page_commits.length < 10 then some commits'
          else commitsLoop pages max_commits fuel (page + 1) commits'

/-- `__get_user_commits` for a fixed (owner, repo, username), the upstream
pages given as an oracle. -/
def get_user_commits (pages : Nat → Option (List RawCommit))
    (max_commits fuel : Nat) : Option (List CommitRec) :=
  commitsLoop pages max_commits fuel 1 []

/-! ## github_collector.py / repository discovery (__get_popular_repositories)

The repository type is kept abstract (`R`); the two collaborators the loop
consults per candidate — `is_technical_repository` (the classifier, an
external collaborator per the design) and `GitHubClient.get_commit_count`
(a network lookup) — are oracle arguments.
-/

/-- Acceptance predicate applied to one search item: it passes the technical
filter and its fetched commit count is at least `min_commits`. -/
def searchFilter {R : Type} (isTech : R → Bool) (commitCount : R → Nat)
    (min_commits : Nat) (r : R) : Bool :=
  isTech r && decide (min_commits ≤ commitCount r)

/-- The `for repo in data["items"]` body of `__get_popular_repositories`:
a non-technical item is skipped (`continue`, which also skips the break
check); otherwise its commit count is fetched and it is appended iff
`commit_count >= min_commits`; then `if len(repos) >= count: break`. -/
def processSearchItems {R : Type} (isTech : R → Bool) (commitCount : R → Nat)
    (min_commits count : Nat) : List R → List R → List R
  | repos, [] => repos
  | repos, r :: rest =>
    if isTech r then
      let repos' := if min_commits ≤ commitCount r then repos ++ [r] else repos
      if count ≤ repos'.length then repos'
      else processSearchItems isTech commitCount min_commits count repos' rest
    else processSearchItems isTech commitCount min_commits count repos rest

/-- The `while` loop of `__get_popular_repositories`, with fuel.
`pages page = none` models a non-200 response or a body without an
`"items"` key (break); a page shorter than `per_page` ends the search. -/
def reposLoop {R : Type} (isTech : R → Bool) (commitCount : R → Nat)
    (pages : Nat → Option (List R)) (count min_commits per_page : Nat) :
    Nat → Nat → List R → Option (List R)
  | 0, _, _ => none
  | fuel + 1, page, repos =>
    if count ≤ repos.length then some repos
    else
      match pages page with
      | none => some repos
      | some items =>
        let repos' := processSearchItems isTech commitCount min_commits count
          repos items
        if items.length < per_page then some repos'
        else reposLoop isTech commitCount pages count min_commits per_page fuel
          (page + 1) repos'

/-- `__get_popular_repositories`: `per_page = min(50, count * 3)`, pages are
requested from 1, and the result is `repos[:count]`. -/
def get_popular_repositories {R : Type} (isTech : R → Bool)
    (commitCount : R → Nat) (pages : Nat → Option (List R))
    (count min_commits fuel : Nat) : Option (List R) :=
  (reposLoop isTech commitCount pages count min_commits (min 50 (count * 3))
    fuel 1 []).map fun l => l.take count

/-- Concatenation of the upstream search pages `page, page+1, ...,
page+m-1`, in upstream order (a missing/failed page contributes nothing). -/
def joinPages {R : Type} (pages : Nat → Option (List R)) :
    Nat → Nat → List R
  | _, 0 => []
  | page, m + 1 => (pages page).getD [] ++ joinPages pages (page + 1) m

/-! ## github_collector.py / __process_single_contributor -/

/-- A Python dict field: missing key, key bound to `None`, or a value. -/
inductive PyField (α : Type) where
  | absent
  | null
  | val (a : α)
deriving DecidableEq

/-- Python `d.get(key, default)`: the default fills in only a missing key;
an explicit `None` stays `None` (Lean `none`). -/
def pyGetD {α : Type} : PyField α → α → Option α
  | PyField.absent, d => some d
  | PyField.null, _ => none
  | PyField.val a, _ => some a

/-- The user-info dict as consulted by `__process_single_contributor`
(`user_info.get('location', 'Unknown')`). -/
structure UserInfo where
  location : PyField String
deriving DecidableEq

/-- The `repo_info` dict built by `__analyze_repository_contributors`. -/
structure RepoInfo where
  id : Nat
  repo_name : String
  repo_type : String
  stars : Nat
  owner_login : String
  stargazers_count : Nat
  commit_count : Nat
deriving DecidableEq

/-- One output row of the collector (the keys written by
`__process_single_contributor`, matching the CSV fieldnames in
`utils.save_to_csv`). -/
structure ResultRow where
  repo_id : Nat
  repo_name : String
  repo_type : String
  stars : Nat
  contributor_login : String
  contributor_location : String
  contributions : Nat
  commit_sha : String
  commit_date : String
deriving DecidableEq

/-- `repo_info['repo_name'].split('/')[1] if '/' in repo_info['repo_name']
else repo_info['repo_name']`. -/
def effectiveRepoName (repo_name : String) : String :=
  if repo_name.contains '/' then (repo_name.splitOn "/").getD 1 ""
  else repo_name

/-- The row emitted for one fetched commit record. -/
def commitRow (repo_info : RepoInfo) (username location : String)
    (contributions : Nat) (c : CommitRec) : ResultRow :=
  { repo_id := repo_info.id, repo_name := repo_info.repo_name,
    repo_type := repo_info.repo_type, stars := repo_info.stargazers_count,
    contributor_login := username, contributor_location := location,
    contributions := contributions, commit_sha := c.sha,
    commit_date := c.date }

/-- The single row emitted when the commit fetch comes back empty. -/
def sentinelRow (repo_info : RepoInfo) (username location : String)
    (contributions : Nat) : ResultRow :=
  { repo_id := repo_info.id, repo_name := repo_info.repo_name,
    repo_type := repo_info.repo_type, stars := repo_info.stargazers_count,
    contributor_login := username, contributor_location := location,
    contributions := contributions, commit_sha := "N/A",
    commit_date := "N/A" }

/-- `GitHubDatasetCollector.__process_single_contributor` (the
`GitHubAnalyzer.process_single_contributor` variant has the same control
flow).  `get_user_info` and `user_commits` are the two network collaborators
(`user_commits owner repo username` stands for
`self.__get_user_commits(owner, repo, username, max_commits_per_user)`).
A contributor without a `'login'` key yields no rows; a falsy location
(`None` or `''`) yields no rows; an empty commit list yields exactly the
sentinel row; otherwise one row per commit record. -/
def process_single_contributor (get_user_info : String → UserInfo)
    (user_commits : String → String → String → List CommitRec)
    (repo_info : RepoInfo) (contributor : Contributor) : List ResultRow :=
  match contributor.login with
  | none => []
  | some username =>
    match pyGetD (get_user_info username).location "Unknown" with
    | none => []
    | some location =>
      if location = "" then []
      else
        let commits := user_commits repo_info.owner_login
          (effectiveRepoName repo_info.repo_name) username
        if commits = [] then
          [sentinelRow repo_info username location contributor.contributions]
        else commits.map
          (commitRow repo_info username location contributor.contributions)

/-! ## utils.py / save_to_csv and src/main.py / run_collect -/

/-- The fixed header of `utils.save_to_csv`. -/
def csvFieldnames : List String :=
  ["repo_id", "repo_name", "repo_type", "stars", "contributor_login",
   "contributor_location", "contributions", "commit_sha", "commit_date"]

/-- The cell values `csv.DictWriter` writes for one row, in fieldname
order. -/
def rowCells (r : ResultRow) : List String :=
  [toString r.repo_id, r.repo_name, r.repo_type, toString r.stars,
   r.contributor_login, r.contributor_location, toString r.contributions,
   r.commit_sha, r.commit_date]

/-- `utils.save_to_csv`: the result is the written file's contents as a list
of CSV records, or `none` when nothing is written.  On falsy `data` the
function prints `"No data to save"` and returns before opening the file, so
no file is written; otherwise the header plus one record per row. -/
def save_to_csv (data : List ResultRow) : Option (List (List String)) :=
  if data = [] then none
  else some (csvFieldnames :: data.map rowCells)

/-- The output-producing tail of `src/main.py run_collect`: whatever row
list the collector produced (including `[]`), `save_to_csv(data,
output_filename)` is invoked unconditionally; the file contents are
whatever the sink decides to write. -/
def run_collect_output (data : List ResultRow) : Option (List (List String)) :=
  save_to_csv data

/-! ## Helper lemmas -/

theorem string_mk_length (l : List Char) : (String.mk l).length = l.length :=
  rfl

/-- A message in cleaned shape: every whitespace character is a plain space
and is not followed by another whitespace character (so whitespace occurs
only as isolated single spaces). -/
def singleSpaced : List Char → Bool
  | [] => true
  | [c] => !pyIsSpace c || c = ' '
  | c1 :: c2 :: rest =>
    (!pyIsSpace c1 || (c1 = ' ' && !pyIsSpace c2)) && singleSpaced (c2 :: rest)

theorem collapseWS_eq_self : ∀ {l : List Char},
    singleSpaced l = true → collapseWS l = l := by
  intro l
  induction l with
  | nil => intro _; rfl
  | cons c rest ih =>
    intro h
    cases rest with
    | nil =>
      rw [singleSpaced] at h
      rw [collapseWS]
      cases hc : pyIsSpace c with
      | false => rfl
      | true =>
        rw [hc] at h
        simp only [Bool.not_true, Bool.false_or, decide_eq_true_eq] at h
        rw [h]
        rfl
    | cons c2 rest2 =>
      rw [singleSpaced] at h
      rw [Bool.and_eq_true] at h
      have ihr : collapseWS (c2 :: rest2) = c2 :: rest2 := ih h.2
      have hh := h.1
      rw [collapseWS]
      cases hc : pyIsSpace c with
      | false =>
        rw [Bool.false_and]
        rw [if_neg (by simp), if_neg (by simp)]
        rw [ihr]
      | true =>
        rw [hc] at hh
        simp only [Bool.not_true, Bool.false_or, Bool.and_eq_true,
          Bool.not_eq_true', decide_eq_true_eq] at hh
        rw [hh.2, Bool.and_false]
        rw [if_neg (by simp)]
        rw [if_pos rfl, ihr, hh.1]


/-! ## Claim theorems -/

/-- C6: for every message whose whitespace-collapsed, stripped form has
exactly 250 characters, `clean_message` returns exactly 200 characters: the
first 197 characters of the collapsed form followed by the 3-character
ellipsis marker `"..."`. -/
theorem clean_message_truncates_250 (m : String)
    (h : (collapseWS (stripWS m.data)).length = 250) :
    (clean_message (some m)).length = 200 ∧
    clean_message (some m) =
      String.mk ((collapseWS (stripWS m.data)).take 197 ++ ['.', '.', '.']) := by
  have hm : m ≠ "" := by
    intro he
    subst he
    exact absurd h (by decide)
  have hgt : 200 < (collapseWS (stripWS m.data)).length := by omega
  have hcl : cleanList m.data =
      (collapseWS (stripWS m.data)).take 197 ++ ['.', '.', '.'] := by
    simp only [cleanList]
    rw [if_pos hgt]
  have hcm : clean_message (some m) = String.mk (cleanList m.data) := by
    simp only [clean_message]
    rw [if_neg hm]
  constructor
  · rw [hcm, hcl, string_mk_length, List.length_append, List.length_take, h]
    simp only [List.length_cons, List.length_nil]
    omega
  · rw [hcm, hcl]

theorem clean_message_truncates_250_witness :
    (collapseWS (stripWS (String.mk (List.replicate 250 'a')).data)).length
      = 250 ∧
    (clean_message (some (String.mk (List.replicate 250 'a')))).length = 200 :=
  ⟨by decide,
   (clean_message_truncates_250 (String.mk (List.replicate 250 'a'))
     (by decide)).1⟩

/-- C7: `clean_message` is the identity on clean inputs: a non-empty,
already-stripped message whose whitespace occurs only as isolated single
spaces and whose length is at most 200 characters is returned unchanged. -/
theorem clean_message_fixed_on_clean (m : String) (h0 : m ≠ "")
    (h1 : stripWS m.data = m.data) (h2 : singleSpaced m.data = true)
    (h3 : m.data.length ≤ 200) :
    clean_message (some m) = m := by
  have hc : collapseWS (stripWS m.data) = m.data := by
    rw [h1]
    exact collapseWS_eq_self h2
  have hcl : cleanList m.data = m.data := by
    simp only [cleanList, hc]
    rw [if_neg (by omega)]
  simp only [clean_message]
  rw [if_neg h0, hcl]

theorem clean_message_fixed_on_clean_witness :
    (("ab cd" : String) ≠ "" ∧ stripWS "ab cd".data = "ab cd".data ∧
      singleSpaced "ab cd".data = true ∧ "ab cd".data.length ≤ 200) ∧
    clean_message (some "ab cd") = "ab cd" :=
  ⟨⟨by decide, by decide, by decide, by decide⟩,
   clean_message_fixed_on_clean "ab cd" (by decide) (by decide) (by decide)
     (by decide)⟩

/-- C10, counterexample to the claim as stated: the non-falsy, whitespace-only
message `" "` cleans to the empty string, and the Record built for a commit
whose message is `" "` therefore carries an empty message field — so "an
emitted Record's message field is never empty" fails, even though falsy
inputs do return `"N/A"`. -/
theorem clean_message_whitespace_only_empty :
    clean_message (some " ") = "" ∧ (" " : String) ≠ "" ∧
    (processCommit
      { hasCommit := true, sha := "0123456789abcdef", date := "",
        message := some " " }).message = "" := by
  refine ⟨by decide, by decide, ?_⟩
  show clean_message (some " ") = ""
  decide

/-- C10, amended: for every falsy message input (`None` or the empty
string), `clean_message` returns the sentinel `"N/A"`, which is nonempty —
in particular `clean_message` is not the identity on the empty string.  (A
truthy whitespace-only message still cleans to `""`, so the Record message
field can nonetheless be empty.) -/
theorem clean_message_falsy_sentinel :
    clean_message none = "N/A" ∧ clean_message (some "") = "N/A" ∧
    clean_message (some "") ≠ "" := by
  refine ⟨rfl, by decide, by decide⟩

/-- C9, counterexample to the claim as stated: on an empty row sequence
`save_to_csv` returns before opening the file (printing "No data to save"),
so no output file — not even one holding only the header — is written. -/
theorem save_to_csv_empty_writes_nothing :
    save_to_csv [] = none ∧
    (none : Option (List (List String))) ≠ some [csvFieldnames] := by
  exact ⟨rfl, by decide⟩

/-- C9, amended: `run_collect` invokes the sink unconditionally on whatever
row sequence was collected, and the sink writes the header plus one record
per row whenever the sequence is non-empty; on the empty sequence it writes
no file at all. -/
theorem run_collect_always_invokes_sink (data : List ResultRow) :
    (data = [] → run_collect_output data = none) ∧
    (data ≠ [] →
      run_collect_output data = some (csvFieldnames :: data.map rowCells)) := by
  constructor
  · intro h
    simp [run_collect_output, save_to_csv, h]
  · intro h
    simp [run_collect_output, save_to_csv, h]

theorem run_collect_always_invokes_sink_witness :
    ([sentinelRow ⟨1, "o/r", "corporate", 5, "o", 5, 100⟩ "u" "Paris" 7] ≠
      ([] : List ResultRow)) ∧
    run_collect_output
        [sentinelRow ⟨1, "o/r", "corporate", 5, "o", 5, 100⟩ "u" "Paris" 7] =
      some (csvFieldnames ::
        List.map rowCells
          [sentinelRow ⟨1, "o/r", "corporate", 5, "o", 5, 100⟩ "u" "Paris" 7]) :=
  ⟨by decide,
   (run_collect_always_invokes_sink
     [sentinelRow ⟨1, "o/r", "corporate", 5, "o", 5, 100⟩ "u" "Paris" 7]).2
     (by decide)⟩

theorem digitChar_isDigit (k : Nat) : (digitChar k).isDigit = true := by
  unfold digitChar
  split <;> decide

theorem isNormalizedTimestamp_strftime (dt : PyDateTime) :
    isNormalizedTimestamp (strftimeYmdHMS dt) = true := by
  show isNormalizedTimestamp (String.mk _) = true
  simp only [isNormalizedTimestamp, strftimeYmdHMS, pad4, pad2,
    List.cons_append, List.nil_append]
  simp [digitChar_isDigit]

/-- C8, counterexample to the claim as stated: `format_date` applied to the
unparseable string `"hello"` hits the bare `except` branch and returns the
raw input unchanged — an output that is neither a `%Y-%m-%d %H:%M:%S`
timestamp nor the sentinel `"N/A"`. -/
theorem format_date_returns_raw_input :
    format_date "hello" = "hello" ∧
    isNormalizedTimestamp "hello" = false ∧
    ("hello" : String) ≠ "N/A" := by
  refine ⟨by decide, by decide, by decide⟩

/-- C8, amended: every `format_date` output is the sentinel `"N/A"` (falsy
input), or a timestamp in the fixed `%Y-%m-%d %H:%M:%S` shape (parse
success), or — when parsing raises — the raw input string returned
unchanged. -/
theorem format_date_trichotomy (s : String) :
    format_date s = "N/A" ∨ isNormalizedTimestamp (format_date s) = true ∨
    format_date s = s := by
  by_cases h : s = ""
  · left
    simp [format_date, h]
  · simp only [format_date, if_neg h]
    cases hp : pyFromIsoformat (replaceZ s.data) with
    | none => right; right; rfl
    | some dt => right; left; exact isNormalizedTimestamp_strftime dt

/-- C1, counterexample to the claim as stated: a 403 response that lacks
both quota signals (`X-RateLimit-Remaining` is the non-integer `"abc"`, no
reset header) is NOT returned to the caller unchanged: the counter update
`int(response.headers['X-RateLimit-Remaining'])` raises an uncaught
`ValueError` first (`try` only catches `requests.exceptions.
RequestException`). -/
theorem make_request_nonint_header_raises :
    make_request "u" [] false
        { status_code := 403, xRateLimitRemaining := some "abc",
          xRateLimitReset := none, text := "" } =
      ReqOutcome.raiseValueError ∧
    ReqOutcome.raiseValueError ≠
      ReqOutcome.ret
        { status_code := 403, xRateLimitRemaining := some "abc",
          xRateLimitReset := none, text := "" } := by
  refine ⟨by decide, by decide⟩

/-- C1, amended: provided every rate-limit header that is present parses as
an integer (always true for the live API), `make_request` sleeps and
retries the same request if and only if the response is HTTP 403 with
`X-RateLimit-Remaining = '0'` and the reset header present; every 403
lacking either signal is returned to the caller unchanged, with no sleep
and no retry.  (Without the proviso, a non-integer header value raises
`ValueError` instead — see the counterexample.) -/
theorem make_request_retry_iff (url : String)
    (params : List (String × String)) (is_search : Bool) (r : HttpResponse)
    (hrem : ∀ s, r.xRateLimitRemaining = some s → (pyInt? s).isSome = true)
    (hres : ∀ s, r.xRateLimitReset = some s → (pyInt? s).isSome = true) :
    (make_request url params is_search r =
        ReqOutcome.sleepRetry url params is_search ↔
      r.status_code = 403 ∧ r.xRateLimitRemaining = some "0" ∧
        r.xRateLimitReset.isSome = true) ∧
    (r.status_code = 403 →
      ¬(r.xRateLimitRemaining = some "0" ∧ r.xRateLimitReset.isSome = true) →
      make_request url params is_search r = ReqOutcome.ret r) := by
  have hstep : make_request url params is_search r =
      requestDecision url params is_search r := by
    unfold make_request
    cases hr : r.xRateLimitRemaining with
    | none => rfl
    | some s => simp [hrem s hr]
  have htr : optStrTruthy r.xRateLimitReset = r.xRateLimitReset.isSome := by
    cases hr : r.xRateLimitReset with
    | none => rfl
    | some s =>
      have hp := hres s hr
      have hs : s ≠ "" := by
        intro he
        subst he
        exact absurd hp (by decide)
      simp [optStrTruthy, hs]
  rw [hstep]
  unfold requestDecision
  simp only [htr]
  constructor
  · constructor
    · intro hmk
      by_cases h403 : r.status_code = 403
      · rw [if_pos h403] at hmk
        by_cases hcond : r.xRateLimitRemaining = some "0" ∧
            r.xRateLimitReset.isSome = true
        · exact ⟨h403, hcond.1, hcond.2⟩
        · rw [if_neg hcond] at hmk
          exact absurd hmk (by simp)
      · rw [if_neg h403] at hmk
        exact absurd hmk (by simp)
    · rintro ⟨h403, hrem0, hres0⟩
      rw [if_pos h403, if_pos ⟨hrem0, hres0⟩]
      cases hr : r.xRateLimitReset with
      | none =>
        rw [hr] at hres0
        exact absurd hres0 (by decide)
      | some rs =>
        simp [hres rs hr]
  · intro h403 hncond
    rw [if_pos h403, if_neg hncond]

theorem make_request_retry_iff_witness :
    make_request "u" [] false
        { status_code := 403, xRateLimitRemaining := some "0",
          xRateLimitReset := some "1700000000", text := "" } =
      ReqOutcome.sleepRetry "u" [] false :=
  ((make_request_retry_iff "u" [] false
      { status_code := 403, xRateLimitRemaining := some "0",
        xRateLimitReset := some "1700000000", text := "" }
      (by intro s hs; cases hs; decide)
      (by intro s hs; cases hs; decide)).1).mpr
    (by refine ⟨rfl, rfl, rfl⟩)

/-- C5: whatever the upstream contributor listing returns and however much
fuel the loop gets, the expansion result `contributors[:max_contributors]`
has length at most `max_contributors`. -/
theorem get_all_contributors_capped (pages : Nat → Option (List Contributor))
    (max_contributors min_contributions fuel : Nat) (res : List Contributor)
    (h : get_all_contributors pages max_contributors min_contributions fuel =
      some res) :
    res.length ≤ max_contributors := by
  unfold get_all_contributors at h
  rw [Option.map_eq_some'] at h
  obtain ⟨l, _, rfl⟩ := h
  simp [List.length_take]

theorem get_all_contributors_capped_witness :
    get_all_contributors (fun _ => some []) 5 0 1 = some [] ∧
    ([] : List Contributor).length ≤ 5 :=
  ⟨by decide,
   get_all_contributors_capped (fun _ => some []) 5 0 1 [] (by decide)⟩

theorem contribLoop_reaches (pages : Nat → Option (List Contributor))
    (maxc minc : Nat)
    (hpages : ∀ p, 1 ≤ p → ∃ l, pages p = some l ∧ l.length = 100 ∧
      ∀ c ∈ l, minc ≤ c.contributions) :
    ∀ n page acc, 1 ≤ page → maxc ≤ acc.length + n * 100 →
      ∃ res, contribLoop pages maxc minc (n + 1) page acc = some res ∧
        maxc ≤ res.length := by
  intro n
  induction n with
  | zero =>
    intro page acc _ hle
    have hle' : maxc ≤ acc.length := by omega
    refine ⟨acc, ?_, hle'⟩
    unfold contribLoop
    rw [if_pos hle']
  | succ n ih =>
    intro page acc hp hle
    by_cases hguard : maxc ≤ acc.length
    · refine ⟨acc, ?_, hguard⟩
      unfold contribLoop
      rw [if_pos hguard]
    · obtain ⟨l, hl, hlen, hall⟩ := hpages page hp
      have hfl : l.filter (fun c => minc ≤ c.contributions) = l := by
        rw [List.filter_eq_self]
        intro a ha
        exact decide_eq_true (hall a ha)
      have hne : ¬(l = []) := by
        intro he
        rw [he] at hlen
        exact absurd hlen (by decide)
      have hstep : contribLoop pages maxc minc (n + 1 + 1) page acc =
          contribLoop pages maxc minc (n + 1) (page + 1) (acc ++ l) := by
        simp only [contribLoop, if_neg hguard, hl, if_neg hne, hfl, hlen]
        rw [if_neg (by decide)]
      obtain ⟨res, hres, hlenres⟩ := ih (page + 1) (acc ++ l) (by omega)
        (by rw [List.length_append, hlen]; omega)
      exact ⟨res, by rw [hstep]; exact hres, hlenres⟩

theorem commitsPage_length (maxc : Nat) :
    ∀ (items : List RawCommit) (acc : List CommitRec),
      (∀ c ∈ items, c.hasCommit = true) → acc.length < maxc →
      (commitsPage maxc acc items).length = min (acc.length + items.length) maxc := by
  intro items
  induction items with
  | nil =>
    intro acc _ hlt
    simp [commitsPage]
    omega
  | cons c rest ih =>
    intro acc hall hlt
    have hc : c.hasCommit = true := hall c (by simp)
    by_cases hb : maxc ≤ acc.length + 1
    · simp [commitsPage, hc, hb]
      omega
    · have hrec := ih (acc ++ [processCommit c])
        (fun d hd => hall d (List.mem_cons_of_mem c hd)) (by simp; omega)
      simp [commitsPage, hc, hb, hrec]
      omega

theorem commitsLoop_reaches (pages : Nat → Option (List RawCommit))
    (maxc : Nat)
    (hpages : ∀ p, 1 ≤ p → ∃ l, pages p = some l ∧ l.length = 10 ∧
      ∀ c ∈ l, c.hasCommit = true) :
    ∀ n page acc, 1 ≤ page → maxc ≤ acc.length + n * 10 →
      ∃ res, commitsLoop pages maxc (n + 1) page acc = some res ∧
        maxc ≤ res.length := by
  intro n
  induction n with
  | zero =>
    intro page acc _ hle
    have hle' : maxc ≤ acc.length := by omega
    refine ⟨acc, ?_, hle'⟩
    unfold commitsLoop
    rw [if_pos hle']
  | succ n ih =>
    intro page acc hp hle
    by_cases hguard : maxc ≤ acc.length
    · refine ⟨acc, ?_, hguard⟩
      unfold commitsLoop
      rw [if_pos hguard]
    · obtain ⟨l, hl, hlen, hall⟩ := hpages page hp
      have hne : ¬(l = []) := by
        intro he
        rw [he] at hlen
        exact absurd hlen (by decide)
      have hacc : (commitsPage maxc acc l).length =
          min (acc.length + 10) maxc := by
        rw [commitsPage_length maxc l acc hall (by omega), hlen]
      have hstep : commitsLoop pages maxc (n + 1 + 1) page acc =
          commitsLoop pages maxc (n + 1) (page + 1) (commitsPage maxc acc l) := by
        simp only [commitsLoop, if_neg hguard, hl, if_neg hne, hlen]
        rw [if_neg (by decide)]
      obtain ⟨res, hres, hlenres⟩ := ih (page + 1) (commitsPage maxc acc l)
        (by omega) (by rw [hacc]; omega)
      exact ⟨res, by rw [hstep]; exact hres, hlenres⟩

/-- C4: for every cap and every synthetic upstream that returns a full page
of accepted items on every request (100-item pages all passing the
contribution filter for `__get_all_contributors`; 10-item pages of valid
commit dicts for `__get_user_commits`), the pagination loop terminates —
with fuel `cap + 1` it exits by itself (`some`), never by fuel exhaustion —
and the accumulated count has reached the cap. -/
theorem pagination_cap_terminates :
    (∀ (pages : Nat → Option (List Contributor)) (maxc minc : Nat),
      (∀ p, 1 ≤ p → ∃ l, pages p = some l ∧ l.length = 100 ∧
        ∀ c ∈ l, minc ≤ c.contributions) →
      ∃ res, contribLoop pages maxc minc (maxc + 1) 1 [] = some res ∧
        maxc ≤ res.length) ∧
    (∀ (pages : Nat → Option (List RawCommit)) (maxc : Nat),
      (∀ p, 1 ≤ p → ∃ l, pages p = some l ∧ l.length = 10 ∧
        ∀ c ∈ l, c.hasCommit = true) →
      ∃ res, get_user_commits pages maxc (maxc + 1) = some res ∧
        maxc ≤ res.length) := by
  constructor
  · intro pages maxc minc hp
    exact contribLoop_reaches pages maxc minc hp maxc 1 []
      (by omega) (by simp only [List.length_nil]; omega)
  · intro pages maxc hp
    exact commitsLoop_reaches pages maxc hp maxc 1 []
      (by omega) (by simp only [List.length_nil]; omega)

theorem pagination_cap_terminates_witness :
    (∃ res, contribLoop
        (fun _ => some (List.replicate 100 ⟨some "u", 5⟩)) 3 1 4 1 [] =
      some res ∧ 3 ≤ res.length) ∧
    (∃ res, get_user_commits
        (fun _ => some (List.replicate 10 ⟨true, "s", "", none⟩)) 2 3 =
      some res ∧ 2 ≤ res.length) :=
  ⟨pagination_cap_terminates.1 _ 3 1
    (by
      intro p _
      refine ⟨_, rfl, by simp, ?_⟩
      intro c hc
      rw [List.eq_of_mem_replicate hc]
      decide),
   pagination_cap_terminates.2 _ 2
    (by
      intro p _
      refine ⟨_, rfl, by simp, ?_⟩
      intro c hc
      rw [List.eq_of_mem_replicate hc])⟩

theorem processSearchItems_eq {R : Type} (isTech : R → Bool)
    (commitCount : R → Nat) (minc count : Nat) :
    ∀ (items repos : List R), repos.length < count →
      processSearchItems isTech commitCount minc count repos items =
        repos ++ (items.filter (searchFilter isTech commitCount minc)).take
          (count - repos.length) := by
  intro items
  induction items with
  | nil =>
    intro repos _
    simp [processSearchItems]
  | cons r rest ih =>
    intro repos h
    by_cases ht : isTech r = true
    · by_cases hcc : minc ≤ commitCount r
      · have hf : searchFilter isTech commitCount minc r = true := by
          simp [searchFilter, ht, hcc]
        by_cases hb : count ≤ repos.length + 1
        · have h1 : count - repos.length = 1 := by omega
          simp only [processSearchItems, if_pos ht, if_pos hcc]
          rw [if_pos (by simp; omega), List.filter_cons_of_pos hf, h1]
          simp
        · have hlen : (repos ++ [r]).length = repos.length + 1 := by simp
          simp only [processSearchItems, if_pos ht, if_pos hcc]
          rw [if_neg (by rw [hlen]; omega)]
          rw [ih (repos ++ [r]) (by rw [hlen]; omega)]
          rw [List.filter_cons_of_pos hf]
          have h2 : count - repos.length = (count - (repos ++ [r]).length) + 1 := by
            rw [hlen]; omega
          rw [h2, List.take_succ_cons]
          simp [List.append_assoc]
      · have hf : ¬(searchFilter isTech commitCount minc r = true) := by
          simp [searchFilter, hcc]
        simp only [processSearchItems, if_pos ht, if_neg hcc]
        rw [if_neg (by omega)]
        rw [ih repos h, List.filter_cons_of_neg hf]
    · have ht' : isTech r = false := by
        cases h2 : isTech r with
        | false => rfl
        | true => exact absurd h2 ht
      have hf : ¬(searchFilter isTech commitCount minc r = true) := by
        simp [searchFilter, ht']
      simp only [processSearchItems, if_neg ht]
      rw [ih repos h, List.filter_cons_of_neg hf]

theorem reposLoop_prefix {R : Type} (isTech : R → Bool) (commitCount : R → Nat)
    (pages : Nat → Option (List R)) (count minc perp : Nat) :
    ∀ (fuel page : Nat) (repos res : List R),
      reposLoop isTech commitCount pages count minc perp fuel page repos =
        some res →
      ∃ m, res = repos ++ ((joinPages pages page m).filter
        (searchFilter isTech commitCount minc)).take (count - repos.length) := by
  intro fuel
  induction fuel with
  | zero =>
    intro page repos res h
    exact absurd h (by simp [reposLoop])
  | succ fuel ih =>
    intro page repos res h
    rw [reposLoop] at h
    by_cases hguard : count ≤ repos.length
    · rw [if_pos hguard] at h
      injection h with h'
      refine ⟨0, ?_⟩
      rw [← h']
      simp [joinPages]
    · rw [if_neg hguard] at h
      have hlt : repos.length < count := by omega
      cases hp : pages page with
      | none =>
        rw [hp] at h
        simp only [Option.some.injEq] at h
        refine ⟨0, ?_⟩
        rw [← h]
        simp [joinPages]
      | some items =>
        rw [hp] at h
        simp only [] at h
        by_cases hshort : items.length < perp
        · rw [if_pos hshort] at h
          simp only [Option.some.injEq] at h
          refine ⟨1, ?_⟩
          rw [← h, processSearchItems_eq isTech commitCount minc count items
            repos hlt]
          simp [joinPages, hp]
        · rw [if_neg hshort] at h
          obtain ⟨m, hm⟩ := ih (page + 1)
            (processSearchItems isTech commitCount minc count repos items) res h
          refine ⟨m + 1, ?_⟩
          rw [hm, processSearchItems_eq isTech commitCount minc count items
            repos hlt]
          have hidx : count - (repos ++
              (items.filter (searchFilter isTech commitCount minc)).take
                (count - repos.length)).length =
              (count - repos.length) -
                (items.filter (searchFilter isTech commitCount minc)).length := by
            simp only [List.length_append, List.length_take]
            omega
          rw [hidx]
          simp [joinPages, hp, List.filter_append,
            List.take_append_eq_append_take, List.append_assoc]

/-- C3: discovery accepts a candidate iff it passes the technical filter and
its fetched commit count meets the minimum, preserving upstream search
order.  First conjunct: the synthetic scenario — one search page of three
repositories `0, 1, 2` with commit counts `2000, 1500, 500` (search order
popularity-descending), threshold `1000` — accepts exactly the
2000-commit and 1500-commit repositories, in that search order.  Second
conjunct, in general: every accepted repository is technical with
`min_commits ≤ commit_count`, and the accepted list is exactly the
order-preserving filter of a prefix of the concatenated search pages,
truncated at the target count — never re-ranked. -/
theorem get_popular_repositories_spec :
    (get_popular_repositories (fun _ : Nat => true)
        (fun r => if r = 0 then 2000 else if r = 1 then 1500 else 500)
        (fun p => if p = 1 then some [0, 1, 2] else none) 30 1000 2 =
      some [0, 1]) ∧
    (∀ (R : Type) (isTech : R → Bool) (commitCount : R → Nat)
        (pages : Nat → Option (List R)) (count minc fuel : Nat)
        (res : List R),
      get_popular_repositories isTech commitCount pages count minc fuel =
        some res →
      (∀ r ∈ res, isTech r = true ∧ minc ≤ commitCount r) ∧
      ∃ m, res = ((joinPages pages 1 m).filter
        (searchFilter isTech commitCount minc)).take count) := by
  constructor
  · decide
  · intro R isTech commitCount pages count minc fuel res h
    unfold get_popular_repositories at h
    rw [Option.map_eq_some'] at h
    obtain ⟨l, hl, rfl⟩ := h
    obtain ⟨m, hm⟩ := reposLoop_prefix isTech commitCount pages count minc
      (min 50 (count * 3)) fuel 1 [] l hl
    rw [List.nil_append, List.length_nil, Nat.sub_zero] at hm
    subst hm
    constructor
    · intro r hr
      have hr2 : r ∈ (joinPages pages 1 m).filter
          (searchFilter isTech commitCount minc) :=
        List.mem_of_mem_take (List.mem_of_mem_take hr)
      have hf := (List.mem_filter.mp hr2).2
      rw [searchFilter, Bool.and_eq_true, decide_eq_true_eq] at hf
      exact hf
    · refine ⟨m, ?_⟩
      rw [List.take_take]
      simp

theorem get_popular_repositories_spec_witness :
    (fun _ : Nat => true) 0 = true ∧
    1000 ≤ (fun r : Nat =>
      if r = 0 then 2000 else if r = 1 then 1500 else 500) 0 :=
  (get_popular_repositories_spec.2 Nat (fun _ => true)
    (fun r => if r = 0 then 2000 else if r = 1 then 1500 else 500)
    (fun p => if p = 1 then some [0, 1, 2] else none) 30 1000 2 [0, 1]
    (by decide)).1 0 (by decide)

/-- C2: for a work item whose contributor has a login, a falsy location
(`None` from an explicit `null`, or the empty string) makes
`__process_single_contributor` return zero rows, before any commit fetch;
a truthy location together with an empty commit-fetch result produces
exactly one sentinel row, whose `commit_sha` field is `"N/A"`. -/
theorem process_single_contributor_spec (get_user_info : String → UserInfo)
    (user_commits : String → String → String → List CommitRec)
    (repo_info : RepoInfo) (contributor : Contributor) (username : String)
    (hlogin : contributor.login = some username) :
    ((pyGetD (get_user_info username).location "Unknown" = none ∨
        pyGetD (get_user_info username).location "Unknown" = some "") →
      process_single_contributor get_user_info user_commits repo_info
        contributor = []) ∧
    (∀ location, pyGetD (get_user_info username).location "Unknown" =
        some location → location ≠ "" →
      user_commits repo_info.owner_login
        (effectiveRepoName repo_info.repo_name) username = [] →
      process_single_contributor get_user_info user_commits repo_info
          contributor =
        [sentinelRow repo_info username location contributor.contributions] ∧
      (sentinelRow repo_info username location
        contributor.contributions).commit_sha = "N/A") := by
  constructor
  · intro hloc
    cases hloc with
    | inl h => simp only [process_single_contributor, hlogin, h]
    | inr h =>
      simp only [process_single_contributor, hlogin, h]
      simp
  · intro location hloc hne hcomm
    refine ⟨?_, rfl⟩
    simp only [process_single_contributor, hlogin, hloc]
    rw [if_neg hne]
    simp only [hcomm]
    simp

theorem process_single_contributor_spec_witness :
    process_single_contributor (fun _ => ⟨PyField.val "Paris"⟩)
        (fun _ _ _ => []) ⟨1, "o/r", "corporate", 5, "o", 5, 100⟩
        ⟨some "u", 7⟩ =
      [sentinelRow ⟨1, "o/r", "corporate", 5, "o", 5, 100⟩ "u" "Paris" 7] ∧
    process_single_contributor (fun _ => ⟨PyField.null⟩) (fun _ _ _ => [])
        ⟨1, "o/r", "corporate", 5, "o", 5, 100⟩ ⟨some "u", 7⟩ = [] :=
  ⟨((process_single_contributor_spec (fun _ => ⟨PyField.val "Paris"⟩)
      (fun _ _ _ => []) ⟨1, "o/r", "corporate", 5, "o", 5, 100⟩
      ⟨some "u", 7⟩ "u" rfl).2 "Paris" rfl (by decide) rfl).1,
   (process_single_contributor_spec (fun _ => ⟨PyField.null⟩)
      (fun _ _ _ => []) ⟨1, "o/r", "corporate", 5, "o", 5, 100⟩
      ⟨some "u", 7⟩ "u" rfl).1 (Or.inl rfl)⟩
